import Mathlib

/-!
# Verification of the parser-combinator engine (`src/index.js`)

Shallow embedding of the combinator engine.  JavaScript strings are
modelled as `List Char` (the code addresses them by integer offset only,
via `slice`, `startsWith`, indexing and `length`, which map to `List.drop`,
`List.isPrefixOf`, `List.get?` and `List.length`).  The polymorphic
`result` field is modelled by the inductive `RVal` (JS `null`, `undefined`,
strings and arrays).  Error-message template strings are modelled by the
inductive `ErrMsg`, one constructor per template in the source, carrying
the interpolated data.  The process-wide suggestion registry and the
`console.log` call in `choice` are side effects that never influence the
returned parse state, so they are not part of the embedding.  The
unbounded `while` loops of `many`, `manyOne`, `sepBy` and `sepByOne` are
embedded with an explicit fuel parameter returning `Option ParserState`;
`none` models non-termination of the JS loop.
-/

namespace PC

/-- JS strings as lists of characters. -/
abbrev Str := List Char

/-- The polymorphic `result` field of a parse state: JS `null`,
`undefined`, a string, or an array of results. -/
inductive RVal where
  | null
  | undef
  | str (s : Str)
  | seq (rs : List RVal)

/-- Error messages, one constructor per template string of the source,
carrying the data interpolated into the template. -/
inductive ErrMsg where
  /-- JS: regexType plus ": Tried match " plus regex plus " got unexpected input at index " plus index. -/
  | regexEmptyInput (regexType pat : Str) (index : Nat)
  /-- JS: regexType plus ": Couldn't match " plus regex plus " at index " plus index plus ", remaining string: " plus slicedTarget.slice(0, 20). -/
  | regexNoMatch (regexType pat : Str) (index : Nat) (remaining : Str)
  /-- JS: "Tried to match " plus s plus " but got unexpected input". -/
  | strEmptyInput (s : Str)
  /-- JS: "Tried to match " plus s plus " but got " plus target.slice(index, index + 10). -/
  | strNoMatch (s : Str) (got : Str)
  /-- JS: "choice: unable to match any parser at index " plus index. -/
  | choiceNoMatch (index : Nat)
  /-- JS: "manyOne: Unable to match any input using parser at index " plus index. -/
  | manyOneNoMatch (index : Nat)
  /-- JS: "sepByOne: Unable to capture any results using parser at index " plus index. -/
  | sepByOneNoMatch (index : Nat)
  /-- An arbitrary message produced by an `errorMap` callback. -/
  | custom (tag : Nat)
deriving DecidableEq, Repr

/-- The parse state record threaded through every operation
(`src/index.js`, `run`, lines 17–27). -/
structure ParserState where
  target : Str
  index : Nat
  result : RVal
  isError : Bool
  error : Option ErrMsg
  errorChain : List ErrMsg
  lastMatchedToken : Option Str
  lastMatchedParserIndex : Nat
  lastMatchedTokenIndex : Nat

/-- A parser's state-transform function (`parseStateTransformFn`). -/
abbrev PFun := ParserState → ParserState

/-- The initial state built by `Parser.run` (lines 17–27). -/
def initialState (target : Str) : ParserState :=
  { target := target
    index := 0
    result := RVal.null
    isError := false
    error := none
    errorChain := []
    lastMatchedToken := none
    lastMatchedParserIndex := 0
    lastMatchedTokenIndex := 0 }

/-- `Parser.run` (lines 16–29). -/
def run (p : PFun) (target : Str) : ParserState :=
  p (initialState target)

/-- `updateParserState` (lines 70–76). -/
def updateParserState (state : ParserState) (index : Nat) (result : RVal) : ParserState :=
  { state with index := index, result := result }

/-- `updateParserResult` (lines 78–83). -/
def updateParserResult (state : ParserState) (result : RVal) : ParserState :=
  { state with result := result }

/-- `updateParserError` (lines 85–92). -/
def updateParserError (state : ParserState) (errMsg : ErrMsg) : ParserState :=
  { state with
    isError := true
    error := some errMsg
    errorChain := state.errorChain ++ [errMsg] }

/-- `Parser.map` (lines 32–40). -/
def map (p : PFun) (fn : RVal → RVal) : PFun := fun parserState =>
  let nextState := p parserState
  if nextState.isError then nextState
  else updateParserResult nextState (fn nextState.result)

/-- `Parser.errorMap` (lines 42–50). -/
def errorMap (p : PFun) (fn : Option ErrMsg → Nat → ErrMsg) : PFun := fun parserState =>
  let nextState := p parserState
  if !nextState.isError then nextState
  else updateParserError nextState (fn nextState.error nextState.index)

/-- `Parser.chain` (lines 57–67): the continuation `fn` picks the next
parser from the intermediate state, which is then run on that state. -/
def chain (p : PFun) (fn : ParserState → PFun) : PFun := fun parserState =>
  let nextState := p parserState
  if nextState.isError then nextState
  else fn nextState nextState

/-- `isSeparation` (lines 94–99), specialised to the only separator
regexes the source ever passes, `/^\s*$/` and `/^,$/`: the matched text is
pure (possibly empty) whitespace, or exactly one comma. -/
def isSeparation (s : Str) : Bool :=
  s.all (fun c => c.isWhitespace) || s == [',']

/-- `regexParserFactory` (lines 101–142).  The JS regex value is
abstracted into `matchFn` (what `slicedTarget.match(regex)` returns as
`matchedRes[0]`, `none` when there is no match) and its display text
`pat` (what interpolating the regex into a template string produces).
The two `addSuggestion` calls only mutate the process-wide registry and
never change the returned state, so they are omitted. -/
def regexParserFactory (matchFn : Str → Option Str) (regexType pat : Str) : PFun :=
  fun parserState =>
    if parserState.isError then parserState
    else
      let slicedTarget := parserState.target.drop parserState.index
      match matchFn slicedTarget with
      | some matched =>
        if isSeparation matched then
          updateParserState parserState (parserState.index + matched.length) (RVal.str matched)
        else
          updateParserState
            { parserState with
              lastMatchedToken := some matched
              lastMatchedTokenIndex := parserState.index + matched.length
              lastMatchedParserIndex := parserState.index + matched.length }
            (parserState.index + matched.length) (RVal.str matched)
      | none =>
        if slicedTarget.length = 0 then
          updateParserError parserState
            (ErrMsg.regexEmptyInput regexType pat parserState.index)
        else
          updateParserError parserState
            (ErrMsg.regexNoMatch regexType pat parserState.index (slicedTarget.take 20))

/-- The matcher of an anchored one-or-more character-class regex such as
`/^[a-zA-Z]+/` or `/^[0-9]+/`: the longest non-empty prefix of characters
satisfying `pred`, `none` when the first character does not satisfy it. -/
def matchRegexPlus (pred : Char → Bool) (s : Str) : Option Str :=
  let t := s.takeWhile pred
  if t.isEmpty then none else some t

/-- `letters` (line 144). -/
def letters : PFun :=
  regexParserFactory (matchRegexPlus Char.isAlpha) "letters".toList "/^[a-zA-Z]+/".toList

/-- `digits` (line 145). -/
def digits : PFun :=
  regexParserFactory (matchRegexPlus Char.isDigit) "digits".toList "/^[0-9]+/".toList

/-- `str` (lines 147–181).  `slicedTarget.startsWith(s)` is
`List.isPrefixOf`; the `addSuggestion` calls are registry-only side
effects and are omitted. -/
def str (s : Str) : PFun := fun parserState =>
  if parserState.isError then parserState
  else
    let slicedTarget := parserState.target.drop parserState.index
    if slicedTarget.length = 0 then
      updateParserError parserState (ErrMsg.strEmptyInput s)
    else if s.isPrefixOf slicedTarget then
      if isSeparation s then
        updateParserState parserState (parserState.index + s.length) (RVal.str s)
      else
        updateParserState
          { parserState with
            lastMatchedToken := some s
            lastMatchedTokenIndex := parserState.index + s.length
            lastMatchedParserIndex := parserState.index + s.length }
          (parserState.index + s.length) (RVal.str s)
    else
      updateParserError parserState
        (ErrMsg.strNoMatch s (slicedTarget.take 10))

/-- `eat` (lines 183–216).  The terminal regex is abstracted into
`findFn`, returning the offset of the first terminal match in the
remaining suffix (`matched.index`), `none` when the terminal never
occurs. -/
def eat (findFn : Str → Option Nat) : PFun := fun parserState =>
  if parserState.isError then parserState
  else
    let slicedTarget := parserState.target.drop parserState.index
    match findFn slicedTarget with
    | some termIndex =>
      let eatenToken := slicedTarget.take termIndex
      updateParserState
        { parserState with
          lastMatchedToken := some eatenToken
          lastMatchedTokenIndex := parserState.index + termIndex
          lastMatchedParserIndex := parserState.index + termIndex }
        (parserState.index + termIndex) (RVal.str eatenToken)
    | none =>
      updateParserState
        { parserState with
          lastMatchedToken := some slicedTarget
          lastMatchedTokenIndex := parserState.target.length
          lastMatchedParserIndex := parserState.target.length }
        parserState.target.length (RVal.str slicedTarget)

/-- Loop body of `sequenceOf` (lines 223–228): runs every parser on the
evolving state — with no early exit — pushing each intermediate
`result`. -/
def sequenceOfLoop (parsers : List PFun) (nextState : ParserState) (results : List RVal) :
    ParserState × List RVal :=
  match parsers with
  | [] => (nextState, results)
  | p :: rest =>
    let n := p nextState
    sequenceOfLoop rest n (results ++ [n.result])

/-- `sequenceOf` (lines 218–234). -/
def sequenceOf (parsers : List PFun) : PFun := fun parserState =>
  if parserState.isError then parserState
  else
    let pr := sequenceOfLoop parsers parserState []
    if pr.1.isError then pr.1
    else updateParserResult pr.1 (RVal.seq pr.2)

/-- JS truthiness of the `lastMatchedToken` field (`null` and the empty
string are falsy). -/
def jsTruthyTok : Option Str → Bool
  | none => false
  | some t => !t.isEmpty

/-- Loop of `choice` (lines 241–258) with its three accumulators
`lastMatchedToken`, `lastMatchedTokenIndex` and
`preStateMatchedTokenState`. -/
def choiceLoop (parsers : List PFun) (parserState : ParserState)
    (lastMatchedToken : Option Str) (lastMatchedTokenIndex preStateMatchedTokenState : Nat) :
    ParserState :=
  match parsers with
  | [] =>
    updateParserError
      { parserState with
        lastMatchedToken := lastMatchedToken
        lastMatchedTokenIndex := lastMatchedTokenIndex }
      (ErrMsg.choiceNoMatch parserState.index)
  | p :: rest =>
    let nextState := p parserState
    if !nextState.isError then nextState
    else if jsTruthyTok nextState.lastMatchedToken
        && preStateMatchedTokenState < nextState.lastMatchedTokenIndex then
      choiceLoop rest parserState nextState.lastMatchedToken
        nextState.lastMatchedTokenIndex nextState.lastMatchedTokenIndex
    else
      choiceLoop rest parserState lastMatchedToken lastMatchedTokenIndex
        preStateMatchedTokenState

/-- `choice` (lines 236–263).  The `console.log` on each failed
alternative is a side effect that never changes the returned state and is
omitted. -/
def choice (parsers : List PFun) : PFun := fun parserState =>
  if parserState.isError then parserState
  else choiceLoop parsers parserState none 0 0

/-- Loop of `many` (lines 270–292) with fuel; on loop entry the JS
variables `nextState` and `lastSuccessState` are always equal, so a
single parameter carries both. -/
def manyLoop (p : PFun) (fuel : Nat) (lastSuccessState : ParserState) (results : List RVal) :
    Option ParserState :=
  match fuel with
  | 0 => none
  | fuel + 1 =>
    let nextState := p lastSuccessState
    if nextState.isError then
      some (updateParserResult
        { lastSuccessState with
          errorChain := nextState.errorChain
          lastMatchedToken := nextState.lastMatchedToken
          lastMatchedTokenIndex := nextState.lastMatchedTokenIndex }
        (RVal.seq results))
    else manyLoop p fuel nextState (results ++ [nextState.result])

/-- `many` (lines 265–292), fuelled. -/
def many (p : PFun) (fuel : Nat) (parserState : ParserState) : Option ParserState :=
  if parserState.isError then some parserState
  else manyLoop p fuel parserState []

/-- Loop of `manyOne` (lines 299–331) with fuel; `startState` is the
original entry state (JS `parserState`), `nextState` the state after the
last success.  The JS `results.length === 0` test after the loop is
checked at the break point, where `results` has its final value. -/
def manyOneLoop (p : PFun) (fuel : Nat) (startState nextState : ParserState)
    (results : List RVal) : Option ParserState :=
  match fuel with
  | 0 => none
  | fuel + 1 =>
    let lastState := p nextState
    if lastState.isError then
      if results.isEmpty then
        some (updateParserError
          { startState with
            errorChain := lastState.errorChain
            lastMatchedToken := lastState.lastMatchedToken
            lastMatchedTokenIndex := lastState.lastMatchedTokenIndex }
          (ErrMsg.manyOneNoMatch startState.index))
      else
        some (updateParserResult
          { nextState with
            errorChain := lastState.errorChain
            lastMatchedToken := lastState.lastMatchedToken
            lastMatchedTokenIndex := lastState.lastMatchedTokenIndex }
          (RVal.seq results))
    else manyOneLoop p fuel startState lastState (results ++ [lastState.result])

/-- `manyOne` (lines 294–332), fuelled. -/
def manyOne (p : PFun) (fuel : Nat) (parserState : ParserState) : Option ParserState :=
  if parserState.isError then some parserState
  else manyOneLoop p fuel parserState parserState []

/-- Loop of `sepBy` (lines 343–367) with fuel.  At the value-failure
break, JS `nextState` is the state before the failed value attempt; at
the separator-failure break it equals `thingWeWantState`, whose own
diagnostic fields are then (redundantly) copied onto it. -/
def sepByLoop (separator value : PFun) (fuel : Nat) (nextState : ParserState)
    (results : List RVal) : Option ParserState :=
  match fuel with
  | 0 => none
  | fuel + 1 =>
    let thingWeWantState := value nextState
    if thingWeWantState.isError then
      some (updateParserResult
        { nextState with
          errorChain := thingWeWantState.errorChain
          lastMatchedToken := thingWeWantState.lastMatchedToken
          lastMatchedTokenIndex := thingWeWantState.lastMatchedTokenIndex }
        (RVal.seq results))
    else
      let results := results ++ [thingWeWantState.result]
      let separatorState := separator thingWeWantState
      if separatorState.isError then
        some (updateParserResult
          { thingWeWantState with
            errorChain := thingWeWantState.errorChain
            lastMatchedToken := thingWeWantState.lastMatchedToken
            lastMatchedTokenIndex := thingWeWantState.lastMatchedTokenIndex }
          (RVal.seq results))
      else sepByLoop separator value fuel separatorState results

/-- `sepBy` (lines 338–368), fuelled. -/
def sepBy (separator value : PFun) (fuel : Nat) (parserState : ParserState) :
    Option ParserState :=
  if parserState.isError then some parserState
  else sepByLoop separator value fuel parserState []

/-- Loop of `sepByOne` (lines 375–410) with fuel; same loop as `sepBy`,
but a break at the first value attempt with zero collected results
produces the arity error built from the original entry state
`startState`. -/
def sepByOneLoop (separator value : PFun) (fuel : Nat) (startState nextState : ParserState)
    (results : List RVal) : Option ParserState :=
  match fuel with
  | 0 => none
  | fuel + 1 =>
    let thingWeWantState := value nextState
    if thingWeWantState.isError then
      if results.isEmpty then
        some (updateParserError
          { startState with
            errorChain := thingWeWantState.errorChain
            lastMatchedToken := thingWeWantState.lastMatchedToken
            lastMatchedTokenIndex := thingWeWantState.lastMatchedTokenIndex }
          (ErrMsg.sepByOneNoMatch startState.index))
      else
        some (updateParserResult
          { nextState with
            errorChain := thingWeWantState.errorChain
            lastMatchedToken := thingWeWantState.lastMatchedToken
            lastMatchedTokenIndex := thingWeWantState.lastMatchedTokenIndex }
          (RVal.seq results))
    else
      let results := results ++ [thingWeWantState.result]
      let separatorState := separator thingWeWantState
      if separatorState.isError then
        some (updateParserResult
          { thingWeWantState with
            errorChain := thingWeWantState.errorChain
            lastMatchedToken := thingWeWantState.lastMatchedToken
            lastMatchedTokenIndex := thingWeWantState.lastMatchedTokenIndex }
          (RVal.seq results))
      else sepByOneLoop separator value fuel startState separatorState results

/-- `sepByOne` (lines 370–411), fuelled. -/
def sepByOne (separator value : PFun) (fuel : Nat) (parserState : ParserState) :
    Option ParserState :=
  if parserState.isError then some parserState
  else sepByOneLoop separator value fuel parserState parserState []

/-- `between` (lines 334–336); `results[1]` on a non-array JS value at an
out-of-range position is `undefined`. -/
def between (leftParser rightParser : PFun) (contentParser : PFun) : PFun :=
  map (sequenceOf [leftParser, contentParser, rightParser]) (fun results =>
    match results with
    | RVal.seq rs => rs.getD 1 RVal.undef
    | _ => RVal.undef)

/-- `succeed` (lines 413–419). -/
def succeed (value : RVal) : PFun := fun parserState =>
  if parserState.isError then parserState
  else updateParserResult parserState value

/-- `lazy` (lines 421–425): re-invokes the thunk on every use. -/
def lazy (thunkP : Unit → PFun) : PFun := fun parserState =>
  thunkP () parserState

/-- `oneOrZero` (line 427). -/
def oneOrZero (p : PFun) : PFun :=
  choice [p, succeed RVal.null]

/-- Loop of `sequenceSepBy` (lines 449–453): the first
`parsers.length - 1` parsers each followed by the separator. -/
def sequenceSepByLoop (sep : PFun) (parsers : List PFun) (nextState : ParserState)
    (results : List RVal) : ParserState × List RVal :=
  match parsers with
  | [] => (nextState, results)
  | p :: rest =>
    let n := p nextState
    sequenceSepByLoop sep rest (sep n) (results ++ [n.result])

/-- `sequenceSepBy` (lines 441–460).  After the loop the code accesses
`parsers[parsers.length - 1]`; on the empty list this is `parsers[0]`,
i.e. `undefined`, and calling `.parseStateTransformFn` on it throws — the
crash is modelled by `none`. -/
def sequenceSepBy (sep : PFun) (parsers : List PFun) (parserState : ParserState) :
    Option ParserState :=
  if parserState.isError then some parserState
  else
    let pr := sequenceSepByLoop sep (parsers.take (parsers.length - 1)) parserState []
    match parsers[parsers.length - 1]? with
    | none => none
    | some lastP =>
      let n := lastP pr.1
      let results := pr.2 ++ [n.result]
      if n.isError then some n
      else some (updateParserResult n (RVal.seq results))

/-- JS `target[index]`: a one-character string, or `undefined` past the
end. -/
def jsCharAt (t : Str) (i : Nat) : RVal :=
  match t[i]? with
  | some c => RVal.str [c]
  | none => RVal.undef

/-- `peek` (lines 462–464): note the absence of an `isError` check. -/
def peek : PFun := fun parserState =>
  updateParserResult parserState (jsCharAt parserState.target parserState.index)

/-- `getCurState` (line 466). -/
def getCurState : PFun := fun parserState => parserState

/-- `setCurState` (lines 468–471). -/
def setCurState (state : ParserState) : PFun := fun _ => state

/-- A finished or suspended generator as driven by `contextual`
(lines 473–489): either done with a final value, or suspended at a
`yield` of a parser, with a continuation taking the state the driver
passes back into `gen.next`. -/
inductive Gen where
  | done (value : RVal)
  | step (p : PFun) (k : ParserState → Gen)

/-- `runStep` inside `contextual` (lines 476–486). -/
def runStep : Gen → PFun
  | Gen.done value => succeed value
  | Gen.step p k => chain p (fun nextState => runStep (k nextState))

/-- `contextual` (lines 473–489). -/
def contextual (g : Gen) : PFun :=
  chain (succeed RVal.null) (fun _ => runStep g)

/-! ## Basic lemmas about the state-update primitives -/

@[simp] theorem updateParserError_target (s : ParserState) (m : ErrMsg) :
    (updateParserError s m).target = s.target := rfl

@[simp] theorem updateParserError_index (s : ParserState) (m : ErrMsg) :
    (updateParserError s m).index = s.index := rfl

@[simp] theorem updateParserError_result (s : ParserState) (m : ErrMsg) :
    (updateParserError s m).result = s.result := rfl

@[simp] theorem updateParserError_isError (s : ParserState) (m : ErrMsg) :
    (updateParserError s m).isError = true := rfl

@[simp] theorem updateParserError_error (s : ParserState) (m : ErrMsg) :
    (updateParserError s m).error = some m := rfl

@[simp] theorem updateParserError_errorChain (s : ParserState) (m : ErrMsg) :
    (updateParserError s m).errorChain = s.errorChain ++ [m] := rfl

@[simp] theorem updateParserError_lastMatchedToken (s : ParserState) (m : ErrMsg) :
    (updateParserError s m).lastMatchedToken = s.lastMatchedToken := rfl

@[simp] theorem updateParserError_lastMatchedTokenIndex (s : ParserState) (m : ErrMsg) :
    (updateParserError s m).lastMatchedTokenIndex = s.lastMatchedTokenIndex := rfl

@[simp] theorem updateParserError_lastMatchedParserIndex (s : ParserState) (m : ErrMsg) :
    (updateParserError s m).lastMatchedParserIndex = s.lastMatchedParserIndex := rfl

@[simp] theorem updateParserState_target (s : ParserState) (i : Nat) (r : RVal) :
    (updateParserState s i r).target = s.target := rfl

@[simp] theorem updateParserState_index (s : ParserState) (i : Nat) (r : RVal) :
    (updateParserState s i r).index = i := rfl

@[simp] theorem updateParserState_result (s : ParserState) (i : Nat) (r : RVal) :
    (updateParserState s i r).result = r := rfl

@[simp] theorem updateParserState_isError (s : ParserState) (i : Nat) (r : RVal) :
    (updateParserState s i r).isError = s.isError := rfl

@[simp] theorem updateParserState_lastMatchedToken (s : ParserState) (i : Nat) (r : RVal) :
    (updateParserState s i r).lastMatchedToken = s.lastMatchedToken := rfl

@[simp] theorem updateParserState_lastMatchedTokenIndex (s : ParserState) (i : Nat) (r : RVal) :
    (updateParserState s i r).lastMatchedTokenIndex = s.lastMatchedTokenIndex := rfl

@[simp] theorem updateParserState_lastMatchedParserIndex (s : ParserState) (i : Nat) (r : RVal) :
    (updateParserState s i r).lastMatchedParserIndex = s.lastMatchedParserIndex := rfl

@[simp] theorem updateParserResult_target (s : ParserState) (r : RVal) :
    (updateParserResult s r).target = s.target := rfl

@[simp] theorem updateParserResult_index (s : ParserState) (r : RVal) :
    (updateParserResult s r).index = s.index := rfl

@[simp] theorem updateParserResult_result (s : ParserState) (r : RVal) :
    (updateParserResult s r).result = r := rfl

@[simp] theorem updateParserResult_isError (s : ParserState) (r : RVal) :
    (updateParserResult s r).isError = s.isError := rfl

@[simp] theorem updateParserResult_errorChain (s : ParserState) (r : RVal) :
    (updateParserResult s r).errorChain = s.errorChain := rfl

@[simp] theorem updateParserResult_lastMatchedToken (s : ParserState) (r : RVal) :
    (updateParserResult s r).lastMatchedToken = s.lastMatchedToken := rfl

@[simp] theorem updateParserResult_lastMatchedTokenIndex (s : ParserState) (r : RVal) :
    (updateParserResult s r).lastMatchedTokenIndex = s.lastMatchedTokenIndex := rfl

@[simp] theorem updateParserResult_lastMatchedParserIndex (s : ParserState) (r : RVal) :
    (updateParserResult s r).lastMatchedParserIndex = s.lastMatchedParserIndex := rfl

/-! ## C9: `str` on an exhausted suffix, and `str ""` -/

/-- C9: for every string `s` — including the empty one — `str s` applied
to a non-error state whose remaining suffix is empty (index at or past
the end of the target) returns an error state; on a non-empty remaining
suffix, `str ""` succeeds as an insignificant match without advancing the
index and without touching the diagnostic high-water mark. -/
theorem claim_C9_str_empty_input :
    (∀ (s : Str) (x : ParserState), x.isError = false → x.target.length ≤ x.index →
      (str s x).isError = true) ∧
    (∀ x : ParserState, x.isError = false → x.target.drop x.index ≠ [] →
      (str [] x).isError = false ∧ (str [] x).index = x.index ∧
      (str [] x).result = RVal.str [] ∧
      (str [] x).lastMatchedToken = x.lastMatchedToken ∧
      (str [] x).lastMatchedTokenIndex = x.lastMatchedTokenIndex ∧
      (str [] x).lastMatchedParserIndex = x.lastMatchedParserIndex) := by
  constructor
  · intro s x hx hlen
    have hdrop : (x.target.drop x.index).length = 0 := by
      simp [List.length_drop, Nat.sub_eq_zero_of_le hlen]
    simp [str, hx, hdrop]
  · intro x hx hne
    have hlt : x.index < x.target.length := by
      by_contra hle
      exact hne (List.drop_eq_nil_of_le (Nat.le_of_not_lt hle))
    have hdrop : ¬(List.length x.target - x.index = 0) := Nat.sub_ne_zero_of_lt hlt
    have hpre : (List.isPrefixOf ([] : Str) (x.target.drop x.index)) = true := by
      cases x.target.drop x.index <;> rfl
    simp [str, hx, hdrop, hpre, isSeparation, updateParserState]

/-- C9 witness: `str "z"` errors at end-of-input on the empty target, and
`str ""` succeeds without moving on target `"q"`. -/
theorem claim_C9_witness :
    ((initialState []).isError = false ∧ (initialState ([] : Str)).target.length ≤ (initialState ([] : Str)).index ∧
      (str ['z'] (initialState [])).isError = true) ∧
    ((initialState ['q']).isError = false ∧ (initialState ['q']).target.drop (initialState ['q']).index ≠ [] ∧
      (str [] (initialState ['q'])).isError = false ∧ (str [] (initialState ['q'])).index = (initialState ['q']).index) := by
  refine ⟨⟨rfl, by decide, claim_C9_str_empty_input.1 ['z'] (initialState []) rfl (by decide)⟩,
    rfl, by decide, (claim_C9_str_empty_input.2 (initialState ['q']) rfl (by decide)).1,
    (claim_C9_str_empty_input.2 (initialState ['q']) rfl (by decide)).2.1⟩

/-! ## C7: insignificant matches and the diagnostic high-water mark -/

/-- C7: a successful pattern-matcher or literal-matcher match whose text
is insignificant (pure whitespace, or a single comma) advances the index
and sets the result but leaves `lastMatchedToken`,
`lastMatchedTokenIndex` and `lastMatchedParserIndex` unchanged, while a
successful non-insignificant match sets `lastMatchedToken` to the matched
text and both index fields to the offset at which the match ended. -/
theorem claim_C7_insignificant_matches :
    ∀ (matchFn : Str → Option Str) (regexType pat : Str) (sb : Str) (s : ParserState) (m : Str),
      s.isError = false →
      (matchFn (s.target.drop s.index) = some m →
        ((isSeparation m = true →
            (regexParserFactory matchFn regexType pat s).index = s.index + m.length ∧
            (regexParserFactory matchFn regexType pat s).result = RVal.str m ∧
            (regexParserFactory matchFn regexType pat s).isError = false ∧
            (regexParserFactory matchFn regexType pat s).lastMatchedToken = s.lastMatchedToken ∧
            (regexParserFactory matchFn regexType pat s).lastMatchedTokenIndex = s.lastMatchedTokenIndex ∧
            (regexParserFactory matchFn regexType pat s).lastMatchedParserIndex = s.lastMatchedParserIndex) ∧
          (isSeparation m = false →
            (regexParserFactory matchFn regexType pat s).index = s.index + m.length ∧
            (regexParserFactory matchFn regexType pat s).result = RVal.str m ∧
            (regexParserFactory matchFn regexType pat s).isError = false ∧
            (regexParserFactory matchFn regexType pat s).lastMatchedToken = some m ∧
            (regexParserFactory matchFn regexType pat s).lastMatchedTokenIndex = s.index + m.length ∧
            (regexParserFactory matchFn regexType pat s).lastMatchedParserIndex = s.index + m.length))) ∧
      ((s.target.drop s.index).length ≠ 0 → sb.isPrefixOf (s.target.drop s.index) = true →
        ((isSeparation sb = true →
            (str sb s).index = s.index + sb.length ∧
            (str sb s).result = RVal.str sb ∧
            (str sb s).isError = false ∧
            (str sb s).lastMatchedToken = s.lastMatchedToken ∧
            (str sb s).lastMatchedTokenIndex = s.lastMatchedTokenIndex ∧
            (str sb s).lastMatchedParserIndex = s.lastMatchedParserIndex) ∧
          (isSeparation sb = false →
            (str sb s).index = s.index + sb.length ∧
            (str sb s).result = RVal.str sb ∧
            (str sb s).isError = false ∧
            (str sb s).lastMatchedToken = some sb ∧
            (str sb s).lastMatchedTokenIndex = s.index + sb.length ∧
            (str sb s).lastMatchedParserIndex = s.index + sb.length))) := by
  intro matchFn regexType pat sb s m hx
  constructor
  · intro hm
    constructor
    · intro hsep
      simp [regexParserFactory, hx, hm, hsep, updateParserState]
    · intro hsep
      simp [regexParserFactory, hx, hm, hsep, updateParserState]
  · intro hlen hpre
    have hlen' : ¬(List.length s.target - s.index = 0) := by
      simpa using hlen
    constructor
    · intro hsep
      simp [str, hx, hlen', hpre, hsep, updateParserState]
    · intro hsep
      simp [str, hx, hlen', hpre, hsep, updateParserState]

/-- C7 witness: the literal `","` matches as an insignificant separator
on `",x"` leaving the high-water mark untouched, and the `digits` pattern
matches `"12"` as a significant token updating it. -/
theorem claim_C7_witness :
    ((initialState [',', 'x']).isError = false ∧
      isSeparation [','] = true ∧
      ((initialState [',', 'x']).target.drop (initialState [',', 'x']).index).length ≠ 0 ∧
      List.isPrefixOf [','] ((initialState [',', 'x']).target.drop (initialState [',', 'x']).index) = true ∧
      (str [','] (initialState [',', 'x'])).lastMatchedToken = (initialState [',', 'x']).lastMatchedToken ∧
      (str [','] (initialState [',', 'x'])).index = (initialState [',', 'x']).index + [','].length) ∧
    ((initialState ['1', '2']).isError = false ∧
      matchRegexPlus Char.isDigit ((initialState ['1', '2']).target.drop (initialState ['1', '2']).index) = some ['1', '2'] ∧
      isSeparation ['1', '2'] = false ∧
      (regexParserFactory (matchRegexPlus Char.isDigit) "digits".toList "/^[0-9]+/".toList (initialState ['1', '2'])).lastMatchedToken = some ['1', '2'] ∧
      (regexParserFactory (matchRegexPlus Char.isDigit) "digits".toList "/^[0-9]+/".toList (initialState ['1', '2'])).lastMatchedTokenIndex = (initialState ['1', '2']).index + (['1', '2'] : Str).length) := by
  refine ⟨⟨rfl, by decide, by decide, by decide, ?_, ?_⟩, rfl, by decide, by decide, ?_, ?_⟩
  · exact (((claim_C7_insignificant_matches (fun _ => none) [] [] [','] (initialState [',', 'x']) []
      rfl).2 (by decide) (by decide)).1 (by decide)).2.2.2.1
  · exact (((claim_C7_insignificant_matches (fun _ => none) [] [] [','] (initialState [',', 'x']) []
      rfl).2 (by decide) (by decide)).1 (by decide)).1
  · exact (((claim_C7_insignificant_matches (matchRegexPlus Char.isDigit) "digits".toList
      "/^[0-9]+/".toList [] (initialState ['1', '2']) ['1', '2'] rfl).1 (by decide)).2
      (by decide)).2.2.2.1
  · exact (((claim_C7_insignificant_matches (matchRegexPlus Char.isDigit) "digits".toList
      "/^[0-9]+/".toList [] (initialState ['1', '2']) ['1', '2'] rfl).1 (by decide)).2
      (by decide)).2.2.2.2.1

/-! ## C10: `sequenceSepBy` totality and the empty-list crash -/

/-- C10: `sequenceSepBy sep parsers` always returns a state on a
non-empty parser list, runs `sep` between consecutive parsers only (shown
by the two-parser unfolding), and on the empty parser list reads past the
end of the list and returns no state at all (the modelled crash), so
totality holds only under the precondition that `parsers` is
non-empty. -/
theorem claim_C10_sequenceSepBy_totality :
    ∀ (sep : PFun) (parsers : List PFun) (x : ParserState),
      (parsers ≠ [] → (sequenceSepBy sep parsers x).isSome = true) ∧
      (x.isError = false → sequenceSepBy sep [] x = none) ∧
      (∀ p1 p2 : PFun, x.isError = false →
        sequenceSepBy sep [p1, p2] x =
          (let n1 := p1 x
           let n2 := sep n1
           let n3 := p2 n2
           if n3.isError then some n3
           else some (updateParserResult n3 (RVal.seq [n1.result, n3.result])))) := by
  intro sep parsers x
  refine ⟨?_, ?_, ?_⟩
  · intro hne
    have hlt : parsers.length - 1 < parsers.length :=
      Nat.sub_lt (List.length_pos.mpr hne) Nat.one_pos
    by_cases hx : x.isError
    · simp [sequenceSepBy, hx]
    · rw [sequenceSepBy, if_neg (by simp [hx])]
      rw [List.getElem?_eq_getElem hlt]
      dsimp only
      split <;> rfl
  · intro hx
    simp [sequenceSepBy, hx]
  · intro p1 p2 hx
    simp only [sequenceSepBy, hx, Bool.false_eq_true, if_false]
    rfl

/-- C10 witness: on the singleton list `[digits]` a state is returned,
and on the empty list no state is returned. -/
theorem claim_C10_witness :
    ([digits] ≠ ([] : List PFun) ∧
      (sequenceSepBy (str [',']) [digits] (initialState ['1'])).isSome = true) ∧
    ((initialState ['1']).isError = false ∧
      sequenceSepBy (str [',']) [] (initialState ['1']) = none) :=
  ⟨⟨List.cons_ne_nil _ _,
      (claim_C10_sequenceSepBy_totality (str [',']) [digits] (initialState ['1'])).1
        (List.cons_ne_nil _ _)⟩,
    rfl,
    (claim_C10_sequenceSepBy_totality (str [',']) [] (initialState ['1'])).2.1 rfl⟩

/-! ## C5: `sepBy` never fails -/

theorem sepByLoop_isError (separator value : PFun) :
    ∀ (fuel : Nat) (s out : ParserState) (acc : List RVal),
      s.isError = false → sepByLoop separator value fuel s acc = some out →
      out.isError = false := by
  intro fuel
  induction fuel with
  | zero =>
    intro s out acc hs h
    simp [sepByLoop] at h
  | succ n ih =>
    intro s out acc hs h
    simp only [sepByLoop] at h
    by_cases h1 : (value s).isError
    · simp only [h1, if_true] at h
      obtain rfl := Option.some.inj h
      simp [hs]
    · simp only [h1, Bool.false_eq_true, if_false] at h
      by_cases h2 : (separator (value s)).isError
      · simp only [h2, if_true] at h
        obtain rfl := Option.some.inj h
        simp [h1]
      · simp only [h2, Bool.false_eq_true, if_false] at h
        exact ih (separator (value s)) out _ (by simpa using h2) h

/-- C5: whenever the `sepBy` loop terminates on a non-error starting
state, the returned state is not an error; concretely,
`sepBy(str(","))(digits)` on `"1,2,3"` collects `["1","2","3"]` ending at
index 5, and on the empty input collects `[]` without error and without
moving. -/
theorem claim_C5_sepBy_never_fails :
    (∀ (separator value : PFun) (fuel : Nat) (x out : ParserState),
        x.isError = false → sepBy separator value fuel x = some out →
        out.isError = false) ∧
    (∃ out, sepBy (str [',']) digits 10 (initialState "1,2,3".toList) = some out ∧
      out.isError = false ∧ out.index = 5 ∧
      out.result = RVal.seq [RVal.str ['1'], RVal.str ['2'], RVal.str ['3']]) ∧
    (∃ out, sepBy (str [',']) digits 10 (initialState []) = some out ∧
      out.isError = false ∧ out.index = 0 ∧ out.result = RVal.seq []) := by
  refine ⟨?_, ⟨_, rfl, rfl, rfl, rfl⟩, ⟨_, rfl, rfl, rfl, rfl⟩⟩
  intro separator value fuel x out hx h
  rw [sepBy, if_neg (by simp [hx])] at h
  exact sepByLoop_isError separator value fuel x out [] hx h

/-- C5 witness: the universally quantified part applied to the concrete
`sepBy(str(","))(digits)` run on `"1,2,3"`. -/
theorem claim_C5_witness :
    (initialState "1,2,3".toList).isError = false ∧
    ∃ out, sepBy (str [',']) digits 10 (initialState "1,2,3".toList) = some out ∧
      out.isError = false :=
  ⟨rfl, _, rfl,
    claim_C5_sepBy_never_fails.1 (str [',']) digits 10 (initialState "1,2,3".toList) _ rfl rfl⟩

/-! ## C6: `manyOne` versus `many` -/

theorem manyOneLoop_eq_manyLoop (p : PFun) :
    ∀ (fuel : Nat) (start s : ParserState) (acc : List RVal), acc ≠ [] →
      manyOneLoop p fuel start s acc = manyLoop p fuel s acc := by
  intro fuel
  induction fuel with
  | zero => intro start s acc hacc; rfl
  | succ n ih =>
    intro start s acc hacc
    have hempty : acc.isEmpty = false := by
      cases acc with
      | nil => cases hacc rfl
      | cons a as => rfl
    simp only [manyOneLoop, manyLoop]
    by_cases h1 : (p s).isError
    · simp [h1, hempty]
    · simp only [h1, Bool.false_eq_true, if_false]
      exact ih start (p s) (acc ++ [(p s).result]) (by simp)

/-- C6: `manyOne p` returns an error state exactly when `p` fails on the
very first attempt — the error keeps the original starting index and
carries the descriptive arity message `manyOneNoMatch` at that index —
and otherwise (first attempt succeeds) it returns exactly what `many p`
returns. -/
theorem claim_C6_manyOne_arity_failure :
    ∀ (p : PFun) (fuel : Nat) (x : ParserState), x.isError = false →
      ((p x).isError = true → 1 ≤ fuel →
        manyOne p fuel x = some (updateParserError
          { x with
            errorChain := (p x).errorChain
            lastMatchedToken := (p x).lastMatchedToken
            lastMatchedTokenIndex := (p x).lastMatchedTokenIndex }
          (ErrMsg.manyOneNoMatch x.index))) ∧
      ((p x).isError = false → manyOne p fuel x = many p fuel x) := by
  intro p fuel x hx
  constructor
  · intro hp hfuel
    obtain ⟨n, rfl⟩ : ∃ n, fuel = n + 1 := ⟨fuel - 1, by omega⟩
    rw [manyOne, if_neg (by simp [hx])]
    simp [manyOneLoop, hp]
  · intro hp
    rw [manyOne, if_neg (by simp [hx]), many, if_neg (by simp [hx])]
    cases fuel with
    | zero => rfl
    | succ n =>
      simp only [manyOneLoop, manyLoop, hp, Bool.false_eq_true, if_false]
      exact manyOneLoop_eq_manyLoop p n x (p x) [(p x).result] (by simp)

/-- C6 witness: `manyOne (str "a")` fails with the arity error on `"b"`
(where `str "a"` fails immediately) and coincides with `many (str "a")`
on `"aab"`. -/
theorem claim_C6_witness :
    ((initialState ['b']).isError = false ∧
      (str ['a'] (initialState ['b'])).isError = true ∧
      manyOne (str ['a']) 3 (initialState ['b']) = some (updateParserError
        { initialState ['b'] with
          errorChain := (str ['a'] (initialState ['b'])).errorChain
          lastMatchedToken := (str ['a'] (initialState ['b'])).lastMatchedToken
          lastMatchedTokenIndex := (str ['a'] (initialState ['b'])).lastMatchedTokenIndex }
        (ErrMsg.manyOneNoMatch (initialState ['b']).index))) ∧
    ((initialState "aab".toList).isError = false ∧
      (str ['a'] (initialState "aab".toList)).isError = false ∧
      manyOne (str ['a']) 5 (initialState "aab".toList) = many (str ['a']) 5 (initialState "aab".toList)) :=
  ⟨⟨rfl, rfl,
      (claim_C6_manyOne_arity_failure (str ['a']) 3 (initialState ['b']) rfl).1 rfl (by decide)⟩,
    rfl, rfl,
    (claim_C6_manyOne_arity_failure (str ['a']) 5 (initialState "aab".toList) rfl).2 rfl⟩

/-! ## C3: `many` never fails; diagnostics of the failing attempt -/

theorem manyLoop_char (p : PFun) :
    ∀ (fuel : Nat) (s out : ParserState) (acc : List RVal),
      manyLoop p fuel s acc = some out →
      ∃ k, k < fuel ∧
        (∀ i, 1 ≤ i → i ≤ k → (p^[i] s).isError = false) ∧
        (p^[k + 1] s).isError = true ∧
        out = { p^[k] s with
          result := RVal.seq (acc ++ (List.range k).map (fun i => (p^[i + 1] s).result))
          errorChain := (p^[k + 1] s).errorChain
          lastMatchedToken := (p^[k + 1] s).lastMatchedToken
          lastMatchedTokenIndex := (p^[k + 1] s).lastMatchedTokenIndex } := by
  intro fuel
  induction fuel with
  | zero =>
    intro s out acc h
    simp [manyLoop] at h
  | succ n ih =>
    intro s out acc h
    simp only [manyLoop] at h
    by_cases h1 : (p s).isError
    · simp only [h1, if_true] at h
      obtain rfl := Option.some.inj h
      refine ⟨0, Nat.succ_pos n, ?_, ?_, ?_⟩
      · intro i hi1 hi0; omega
      · exact h1
      · simp [updateParserResult]
    · simp only [h1, Bool.false_eq_true, if_false] at h
      obtain ⟨k, hk, hsucc, hfail, hout⟩ := ih (p s) out (acc ++ [(p s).result]) h
      refine ⟨k + 1, by omega, ?_, ?_, ?_⟩
      · intro i hi1 hik
        cases i with
        | zero => omega
        | succ j =>
          cases Nat.eq_zero_or_pos j with
          | inl h0 =>
            subst h0
            simpa using h1
          | inr hj =>
            show (p^[j] (p s)).isError = false
            exact hsucc j hj (by omega)
      · exact hfail
      · rw [hout]
        simp only [List.range_succ_eq_map, List.map_cons, List.map_map, List.append_assoc,
          List.singleton_append]
        rfl

/-- C3 (amended): whenever the `many p` loop terminates on a non-error
starting state, the returned state is not an error: there is a number `k`
of successful applications of `p`; the returned state's index and result
position come from the last successful application (`p` iterated `k`
times; the starting state itself when `k = 0`, so a first-attempt failure
yields an empty ordered sequence with the index unchanged), its result is
the ordered sequence of the successful applications' results, and of its
diagnostic fields `errorChain`, `lastMatchedToken` and
`lastMatchedTokenIndex` are taken from the failing attempt — but
`lastMatchedParserIndex` is kept from the last successful application,
not taken from the failing attempt. -/
theorem claim_C3_many_never_fails :
    ∀ (p : PFun) (fuel : Nat) (x out : ParserState),
      x.isError = false → many p fuel x = some out →
      out.isError = false ∧
      ∃ k, k < fuel ∧
        (∀ i, 1 ≤ i → i ≤ k → (p^[i] x).isError = false) ∧
        (p^[k + 1] x).isError = true ∧
        out = { p^[k] x with
          result := RVal.seq ((List.range k).map (fun i => (p^[i + 1] x).result))
          errorChain := (p^[k + 1] x).errorChain
          lastMatchedToken := (p^[k + 1] x).lastMatchedToken
          lastMatchedTokenIndex := (p^[k + 1] x).lastMatchedTokenIndex } := by
  intro p fuel x out hx h
  rw [many, if_neg (by simp [hx])] at h
  obtain ⟨k, hk, hs, hf, hout⟩ := manyLoop_char p fuel x out [] h
  refine ⟨?_, k, hk, hs, hf, by simpa using hout⟩
  rw [hout]
  show (p^[k] x).isError = false
  cases Nat.eq_zero_or_pos k with
  | inl h0 =>
    subst h0
    exact hx
  | inr hpos => exact hs k hpos le_rfl

/-- An error state whose `lastMatchedParserIndex` differs from the states
around it, used to separate "taken from the failing attempt" from "kept
from the last success". -/
def errStateParserIndex42 : ParserState :=
  { target := []
    index := 0
    result := RVal.null
    isError := true
    error := none
    errorChain := []
    lastMatchedToken := none
    lastMatchedParserIndex := 42
    lastMatchedTokenIndex := 0 }

/-- C3 counterexample: running `many (setCurState e)` where `e` is an
error state with `lastMatchedParserIndex = 42` terminates at once; the
claim says the returned state's `lastMatchedParserIndex` is taken from
the failing attempt (i.e. 42), but the code keeps the starting state's
value 0. -/
theorem claim_C3_counterexample :
    (setCurState errStateParserIndex42 (initialState [])).isError = true ∧
    (setCurState errStateParserIndex42 (initialState [])).lastMatchedParserIndex = 42 ∧
    ∃ out, many (setCurState errStateParserIndex42) 1 (initialState []) = some out ∧
      out.lastMatchedParserIndex = 0 :=
  ⟨rfl, rfl, _, rfl, rfl⟩

/-- C3 witness: `many (str "a")` on `"aab"` terminates within fuel 4,
returning a non-error state satisfying the characterization. -/
theorem claim_C3_witness :
    (initialState "aab".toList).isError = false ∧
    ∃ out, many (str ['a']) 4 (initialState "aab".toList) = some out ∧
      out.isError = false :=
  ⟨rfl, _, rfl,
    (claim_C3_many_never_fails (str ['a']) 4 (initialState "aab".toList) _ rfl rfl).1⟩

/-! ## C2: `sequenceOf` and error propagation -/

/-- A parser that passes error states through unchanged — the propagation
policy the spec's combinator contract assumes of every well-behaved
parser. -/
def ErrorPass (p : PFun) : Prop := ∀ s : ParserState, s.isError = true → p s = s

theorem str_errorPass (s : Str) : ErrorPass (str s) := by
  intro e he
  simp [str, he]

theorem regexParserFactory_errorPass (matchFn : Str → Option Str) (regexType pat : Str) :
    ErrorPass (regexParserFactory matchFn regexType pat) := by
  intro e he
  simp [regexParserFactory, he]

/-- The sequencing the spec describes, written from its words: run each
parser in order on the evolving state, stop and return immediately on the
first error encountered (running no later parser), and collect the
results otherwise.  To be compared with `sequenceOf`, which is the
code's loop (no early exit). -/
def sequenceOfSpecLoop (parsers : List PFun) (s : ParserState) (acc : List RVal) :
    ParserState :=
  match parsers with
  | [] => updateParserResult s (RVal.seq acc)
  | p :: rest =>
    let n := p s
    if n.isError then n else sequenceOfSpecLoop rest n (acc ++ [n.result])

/-- Spec-side `sequenceOf` (early exit on the first error). -/
def sequenceOfSpec (parsers : List PFun) : PFun := fun s =>
  if s.isError then s else sequenceOfSpecLoop parsers s []

theorem sequenceOfLoop_error (parsers : List PFun) :
    ∀ (s : ParserState) (acc : List RVal), (∀ p ∈ parsers, ErrorPass p) →
      s.isError = true → (sequenceOfLoop parsers s acc).1 = s := by
  induction parsers with
  | nil => intro s acc _ _; rfl
  | cons p rest ih =>
    intro s acc hep hs
    simp only [sequenceOfLoop]
    rw [hep p (List.mem_cons_self p rest) s hs]
    exact ih s _ (fun q hq => hep q (List.mem_cons_of_mem p hq)) hs

theorem sequenceOfLoop_spec_aux (parsers : List PFun) :
    ∀ (s : ParserState) (acc : List RVal), (∀ p ∈ parsers, ErrorPass p) →
      s.isError = false →
      (if (sequenceOfLoop parsers s acc).1.isError then (sequenceOfLoop parsers s acc).1
       else updateParserResult (sequenceOfLoop parsers s acc).1
         (RVal.seq (sequenceOfLoop parsers s acc).2)) =
      sequenceOfSpecLoop parsers s acc := by
  induction parsers with
  | nil =>
    intro s acc _ hs
    simp [sequenceOfLoop, sequenceOfSpecLoop, hs]
  | cons p rest ih =>
    intro s acc hep hs
    simp only [sequenceOfLoop, sequenceOfSpecLoop]
    by_cases h1 : (p s).isError
    · have hrest : (sequenceOfLoop rest (p s) (acc ++ [(p s).result])).1 = p s :=
        sequenceOfLoop_error rest (p s) _ (fun q hq => hep q (List.mem_cons_of_mem p hq)) h1
      rw [hrest]
      simp [h1]
    · simp only [h1, Bool.false_eq_true, if_false]
      exact ih (p s) (acc ++ [(p s).result]) (fun q hq => hep q (List.mem_cons_of_mem p hq))
        (by simpa using h1)

/-- C2 (amended): `sequenceOf` runs every parser of the list on the
evolving state with no early exit, pushing each intermediate result, and
only checks for an error after the loop; provided every parser in the
list passes error states through unchanged — as all the primitive
matchers do — this coincides exactly with the claimed behaviour, embodied
by `sequenceOfSpec`: stop at the first error and return that error state
outright, and otherwise succeed with the ordered sequence of each
parser's result, each parser starting where the previous left off. -/
theorem claim_C2_sequenceOf_early_exit :
    ∀ (parsers : List PFun) (x : ParserState), (∀ p ∈ parsers, ErrorPass p) →
      sequenceOf parsers x = sequenceOfSpec parsers x := by
  intro parsers x hep
  by_cases hx : x.isError
  · simp [sequenceOf, sequenceOfSpec, hx]
  · have hx' : x.isError = false := by simpa using hx
    simp only [sequenceOf, sequenceOfSpec, hx', Bool.false_eq_true, if_false]
    exact sequenceOfLoop_spec_aux parsers x [] hep hx'

/-- C2 counterexample: the claim says `sequenceOf` stops and returns the
error state immediately on the first error, running no later parser in
the list; but with the public `setCurState` combinator in third position
the code keeps running after `str "a"` fails on `"b"`, the error thread is
replaced wholesale, and the sequence returns a non-error state. -/
theorem claim_C2_counterexample :
    (str ['a'] (initialState ['b'])).isError = true ∧
    (sequenceOf [str ['a'], setCurState (initialState ['b']), str ['b']]
      (initialState ['b'])).isError = false :=
  ⟨rfl, rfl⟩

/-- C2 witness: the amended theorem applied to `[str "a", digits]` (both
error-passing) on `"a1"`. -/
theorem claim_C2_witness :
    (∀ p ∈ [str ['a'], digits], ErrorPass p) ∧
    sequenceOf [str ['a'], digits] (initialState "a1".toList) =
      sequenceOfSpec [str ['a'], digits] (initialState "a1".toList) := by
  have hep : ∀ p ∈ [str ['a'], digits], ErrorPass p := by
    intro p hp
    rcases List.mem_cons.mp hp with rfl | hp
    · exact str_errorPass ['a']
    · rcases List.mem_cons.mp hp with rfl | hp
      · exact regexParserFactory_errorPass _ _ _
      · cases hp
  exact ⟨hep, claim_C2_sequenceOf_early_exit [str ['a'], digits] (initialState "a1".toList) hep⟩

/-! ## C1: `choice` — first success, furthest-failure pick -/

/-- Spec-side: the first non-error state among the alternatives' results
(each alternative run on the same starting state). -/
def firstNonError (results : List ParserState) : Option ParserState :=
  results.find? (fun r => !r.isError)

/-- One step of the pick scan over the failing alternatives' states: an
alternative replaces the current pick only when its `lastMatchedToken` is
truthy (neither `null` nor empty) and its `lastMatchedTokenIndex`
strictly exceeds the current pick's index. -/
def choicePickStep (acc : Option Str × Nat) (r : ParserState) : Option Str × Nat :=
  if jsTruthyTok r.lastMatchedToken && acc.2 < r.lastMatchedTokenIndex then
    (r.lastMatchedToken, r.lastMatchedTokenIndex)
  else acc

/-- Spec-side: the diagnostic pick among the failed alternatives,
scanned in order starting from `(null, 0)`. -/
def choicePick (results : List ParserState) : Option Str × Nat :=
  results.foldl choicePickStep (none, 0)

theorem firstNonError_cons (r : ParserState) (rs : List ParserState) :
    firstNonError (r :: rs) = if r.isError = false then some r else firstNonError rs := by
  cases hr : r.isError <;> simp [firstNonError, List.find?, hr]

theorem choiceLoop_char (x : ParserState) :
    ∀ (parsers : List PFun) (tok : Option Str) (idx : Nat),
      choiceLoop parsers x tok idx idx =
        match firstNonError (parsers.map (fun p => p x)) with
        | some r => r
        | none =>
          updateParserError
            { x with
              lastMatchedToken := ((parsers.map (fun p => p x)).foldl choicePickStep (tok, idx)).1
              lastMatchedTokenIndex :=
                ((parsers.map (fun p => p x)).foldl choicePickStep (tok, idx)).2 }
            (ErrMsg.choiceNoMatch x.index) := by
  intro parsers
  induction parsers with
  | nil => intro tok idx; rfl
  | cons p rest ih =>
    intro tok idx
    rw [List.map_cons, firstNonError_cons, List.foldl_cons]
    by_cases h1 : (p x).isError
    · rw [if_neg (by simp [h1])]
      by_cases h2 : (jsTruthyTok (p x).lastMatchedToken
          && decide (idx < (p x).lastMatchedTokenIndex)) = true
      · have hseed : choicePickStep (tok, idx) (p x) =
            ((p x).lastMatchedToken, (p x).lastMatchedTokenIndex) := by
          simp only [choicePickStep]
          rw [if_pos h2]
        rw [hseed]
        simp only [choiceLoop, h1, Bool.not_true, Bool.false_eq_true, if_false, h2, if_true]
        exact ih (p x).lastMatchedToken (p x).lastMatchedTokenIndex
      · have hseed : choicePickStep (tok, idx) (p x) = (tok, idx) := by
          simp only [choicePickStep]
          rw [if_neg h2]
        rw [hseed]
        simp only [choiceLoop, h1, Bool.not_true, Bool.false_eq_true, if_false, h2]
        exact ih tok idx
    · have h1' : (p x).isError = false := by simpa using h1
      rw [if_pos h1']
      simp [choiceLoop, h1']

/-- C1 (amended): `choice` runs each alternative on the same starting
state `x` in order and returns the first non-error resulting state
outright; if every alternative returns an error state, it returns an
error state derived from `x` whose error message reports that no
alternative matched at `x`'s index, and whose `lastMatchedToken` and
`lastMatchedTokenIndex` are the pick of a scan over the failing
alternatives' states in order starting from `(null, 0)`: an alternative
replaces the current pick only if its `lastMatchedToken` is truthy
(neither null nor empty) and its `lastMatchedTokenIndex` is strictly
greater than the current pick's index (so the first-seen qualifying
alternative wins exact ties, and if no alternative qualifies the error
state carries `lastMatchedToken = null` and `lastMatchedTokenIndex =
0`, regardless of the failing alternatives' fields). -/
theorem claim_C1_choice_first_success_or_pick :
    ∀ (parsers : List PFun) (x : ParserState), x.isError = false →
      choice parsers x =
        match firstNonError (parsers.map (fun p => p x)) with
        | some r => r
        | none =>
          updateParserError
            { x with
              lastMatchedToken := (choicePick (parsers.map (fun p => p x))).1
              lastMatchedTokenIndex := (choicePick (parsers.map (fun p => p x))).2 }
            (ErrMsg.choiceNoMatch x.index) := by
  intro parsers x hx
  rw [choice, if_neg (by simp [hx])]
  exact choiceLoop_char x parsers none 0

/-- A non-error state whose diagnostic high-water index is 5 while its
`lastMatchedToken` is still `null` (falsy). -/
def stateTokenIndex5 : ParserState :=
  { initialState [] with lastMatchedTokenIndex := 5 }

/-- C1 counterexample: on a state with `lastMatchedTokenIndex = 5` and a
null `lastMatchedToken`, the single alternative `str "a"` fails carrying
that furthest index 5, so the claim says the aggregate error's
`lastMatchedTokenIndex` is 5; but the code's truthiness guard skips the
alternative (its token is null) and returns index 0. -/
theorem claim_C1_counterexample :
    stateTokenIndex5.isError = false ∧
    (str ['a'] stateTokenIndex5).isError = true ∧
    (str ['a'] stateTokenIndex5).lastMatchedTokenIndex = 5 ∧
    (choice [str ['a']] stateTokenIndex5).isError = true ∧
    (choice [str ['a']] stateTokenIndex5).lastMatchedTokenIndex = 0 :=
  ⟨rfl, rfl, rfl, rfl, rfl⟩

/-- C1 witness: on `"ab"`, `choice [str "b", str "a"]` fails its first
alternative and returns the second's success outright. -/
theorem claim_C1_witness :
    (initialState "ab".toList).isError = false ∧
    choice [str ['b'], str ['a']] (initialState "ab".toList) =
      match firstNonError ([str ['b'], str ['a']].map (fun p => p (initialState "ab".toList))) with
      | some r => r
      | none =>
        updateParserError
          { initialState "ab".toList with
            lastMatchedToken :=
              (choicePick ([str ['b'], str ['a']].map (fun p => p (initialState "ab".toList)))).1
            lastMatchedTokenIndex :=
              (choicePick ([str ['b'], str ['a']].map (fun p => p (initialState "ab".toList)))).2 }
          (ErrMsg.choiceNoMatch (initialState "ab".toList).index) :=
  ⟨rfl, claim_C1_choice_first_success_or_pick [str ['b'], str ['a']]
    (initialState "ab".toList) rfl⟩

/-! ## C4: error-state pass-through across the public set; `peek` -/

/-- C4 (amended): applied to an error state, every public operation
returns it unchanged — the primitive matchers and the structural
combinators check `isError` up front (the fuelled loops return the state
immediately); for `map`, `chain` and `lazy` this holds provided the
argument parser itself passes the error state through — with the
explicitly-recovering exceptions (`errorMap`, `setCurState`) and one
more exception the claim omits: `peek`, which never checks `isError` and
overwrites `result` with the character at the current offset even on an
error state.  On any state, `peek` leaves the index and the error flag
unchanged and sets `result` to the single character at the current
offset, or to nothing at end-of-input — so on non-error states it never
fails. -/
theorem claim_C4_error_passthrough :
    ∀ (matchFn : Str → Option Str) (regexType pat sb : Str) (findFn : Str → Option Nat)
      (parsers : List PFun) (p q sepP : PFun) (fn : RVal → RVal)
      (cf : ParserState → PFun) (v : RVal) (g : Gen) (thunkP : Unit → PFun) (fuel : Nat)
      (e : ParserState), e.isError = true →
      regexParserFactory matchFn regexType pat e = e ∧
      str sb e = e ∧
      eat findFn e = e ∧
      sequenceOf parsers e = e ∧
      choice parsers e = e ∧
      many p fuel e = some e ∧
      manyOne p fuel e = some e ∧
      sepBy sepP p fuel e = some e ∧
      sepByOne sepP p fuel e = some e ∧
      succeed v e = e ∧
      getCurState e = e ∧
      oneOrZero p e = e ∧
      sequenceSepBy sepP parsers e = some e ∧
      between p q sepP e = e ∧
      contextual g e = e ∧
      (p e = e → map p fn e = e) ∧
      (p e = e → chain p cf e = e) ∧
      (thunkP () e = e → lazy thunkP e = e) ∧
      peek e = updateParserResult e (jsCharAt e.target e.index) ∧
      (∀ s : ParserState, (peek s).index = s.index ∧ (peek s).isError = s.isError ∧
        (∀ c, s.target[s.index]? = some c → (peek s).result = RVal.str [c]) ∧
        (s.target[s.index]? = none → (peek s).result = RVal.undef)) := by
  intro matchFn regexType pat sb findFn parsers p q sepP fn cf v g thunkP fuel e he
  refine ⟨regexParserFactory_errorPass matchFn regexType pat e he, str_errorPass sb e he,
    ?_, ?_, ?_, ?_, ?_, ?_, ?_, ?_, ?_, ?_, ?_, ?_, ?_, ?_, ?_, ?_, ?_, ?_⟩
  · simp [eat, he]
  · simp [sequenceOf, he]
  · simp [choice, he]
  · simp [many, he]
  · simp [manyOne, he]
  · simp [sepBy, he]
  · simp [sepByOne, he]
  · simp [succeed, he]
  · rfl
  · simp [oneOrZero, choice, he]
  · simp [sequenceSepBy, he]
  · simp [between, map, sequenceOf, he]
  · simp [contextual, chain, succeed, he]
  · intro hp
    simp [map, hp, he]
  · intro hp
    simp [chain, hp, he]
  · intro hl
    simp [lazy, hl]
  · rfl
  · intro s
    refine ⟨rfl, rfl, ?_, ?_⟩
    · intro c hc
      simp [peek, jsCharAt, hc]
    · intro hc
      simp [peek, jsCharAt, hc]

/-- C4 counterexample: `peek` applied to the error state left by
`str "b"` on `"a"` does not pass it through unchanged — it overwrites
`result` (null in the error state) with the character `"a"` at the
current offset. -/
theorem claim_C4_counterexample :
    (str ['b'] (initialState ['a'])).isError = true ∧
    peek (str ['b'] (initialState ['a'])) ≠ str ['b'] (initialState ['a']) :=
  ⟨rfl, fun h =>
    RVal.noConfusion (show RVal.str ['a'] = RVal.null from congrArg ParserState.result h)⟩

/-- C4 witness: the pass-through conjunction applied to the concrete
error state left by `str "b"` on `"a"`, including a conditional conjunct
(`map`) whose inner hypothesis is discharged by `str`'s own
pass-through. -/
theorem claim_C4_witness :
    (str ['b'] (initialState ['a'])).isError = true ∧
    str ['z'] (str ['b'] (initialState ['a'])) = str ['b'] (initialState ['a']) ∧
    map (str ['q']) (fun r => r) (str ['b'] (initialState ['a'])) =
      str ['b'] (initialState ['a']) := by
  have he : (str ['b'] (initialState ['a'])).isError = true := rfl
  obtain ⟨h1, h2, h3, h4, h5, h6, h7, h8, h9, h10, h11, h12, h13, h14, h15, h16, h17, h18,
      h19, h20⟩ :=
    claim_C4_error_passthrough (fun _ => none) [] [] ['z'] (fun _ => none) []
      (str ['q']) (str ['q']) (str ['q']) (fun r => r) (fun _ => str ['q']) RVal.null
      (Gen.done RVal.null) (fun _ => str ['q']) 1 (str ['b'] (initialState ['a'])) he
  exact ⟨he, h2, h16 (str_errorPass ['q'] _ he)⟩

/-! ## C8: index invariants -/

/-- A parser transform that preserves the target, never decreases the
index, and keeps the index within the target's bounds (starting from an
in-bounds state).  Since the index is a `Nat`, it is in particular never
negative. -/
def IndexSafe (p : PFun) : Prop :=
  ∀ s : ParserState, s.index ≤ s.target.length →
    (p s).target = s.target ∧ s.index ≤ (p s).index ∧ (p s).index ≤ s.target.length

/-- The matched text returned by a JS `match` against a string is never
longer than the string itself. -/
def BoundedMatch (matchFn : Str → Option Str) : Prop :=
  ∀ t m, matchFn t = some m → m.length ≤ t.length

/-- A JS `match`'s `index` is an offset into the string searched. -/
def BoundedFind (findFn : Str → Option Nat) : Prop :=
  ∀ t i, findFn t = some i → i ≤ t.length

theorem indexSafe_regexParserFactory (matchFn : Str → Option Str) (regexType pat : Str)
    (hb : BoundedMatch matchFn) : IndexSafe (regexParserFactory matchFn regexType pat) := by
  intro s hs
  by_cases he : s.isError
  · simp [regexParserFactory, he, hs]
  · simp only [regexParserFactory, he, Bool.false_eq_true, if_false]
    split
    · next m hm =>
      have hlen : m.length ≤ s.target.length - s.index := by
        have := hb _ _ hm
        simpa [List.length_drop] using this
      by_cases hsep : isSeparation m
      · rw [if_pos hsep]
        refine ⟨rfl, Nat.le_add_right _ _, ?_⟩
        show s.index + m.length ≤ s.target.length
        omega
      · rw [if_neg hsep]
        refine ⟨rfl, Nat.le_add_right _ _, ?_⟩
        show s.index + m.length ≤ s.target.length
        omega
    · next hm =>
      split
      · exact ⟨rfl, le_rfl, hs⟩
      · exact ⟨rfl, le_rfl, hs⟩

theorem indexSafe_str (sb : Str) : IndexSafe (str sb) := by
  intro s hs
  by_cases he : s.isError
  · simp [str, he, hs]
  · simp only [str, he, Bool.false_eq_true, if_false]
    by_cases hempty : (s.target.drop s.index).length = 0
    · simp [hempty, hs]
    · simp only [hempty, if_false]
      by_cases hpre : sb.isPrefixOf (s.target.drop s.index)
      · have hlen : sb.length ≤ s.target.length - s.index := by
          have := (List.IsPrefix.length_le (List.isPrefixOf_iff_prefix.mp hpre))
          simpa [List.length_drop] using this
        rw [if_pos hpre]
        by_cases hsep : isSeparation sb
        · rw [if_pos hsep]
          refine ⟨rfl, Nat.le_add_right _ _, ?_⟩
          show s.index + sb.length ≤ s.target.length
          omega
        · rw [if_neg hsep]
          refine ⟨rfl, Nat.le_add_right _ _, ?_⟩
          show s.index + sb.length ≤ s.target.length
          omega
      · rw [if_neg hpre]
        exact ⟨rfl, le_rfl, hs⟩

theorem indexSafe_eat (findFn : Str → Option Nat) (hb : BoundedFind findFn) :
    IndexSafe (eat findFn) := by
  intro s hs
  by_cases he : s.isError
  · simp [eat, he, hs]
  · simp only [eat, he, Bool.false_eq_true, if_false]
    split
    · next termIndex hm =>
      have hlen : termIndex ≤ s.target.length - s.index := by
        have := hb _ _ hm
        simpa [List.length_drop] using this
      refine ⟨rfl, Nat.le_add_right _ _, ?_⟩
      show s.index + termIndex ≤ s.target.length
      omega
    · next hm => exact ⟨rfl, hs, le_rfl⟩

theorem indexSafe_peek : IndexSafe peek := by
  intro s hs
  exact ⟨rfl, le_rfl, hs⟩

theorem indexSafe_succeed (v : RVal) : IndexSafe (succeed v) := by
  intro s hs
  by_cases he : s.isError <;> simp [succeed, he, hs]

theorem indexSafe_getCurState : IndexSafe getCurState := by
  intro s hs
  exact ⟨rfl, le_rfl, hs⟩

theorem indexSafe_map (p : PFun) (fn : RVal → RVal) (hp : IndexSafe p) :
    IndexSafe (map p fn) := by
  intro s hs
  obtain ⟨ht, hle, hub⟩ := hp s hs
  by_cases he : (p s).isError <;> simp [map, he, ht, hle, hub]

theorem indexSafe_errorMap (p : PFun) (fn : Option ErrMsg → Nat → ErrMsg) (hp : IndexSafe p) :
    IndexSafe (errorMap p fn) := by
  intro s hs
  obtain ⟨ht, hle, hub⟩ := hp s hs
  by_cases he : (p s).isError <;> simp [errorMap, he, ht, hle, hub]

theorem indexSafe_chain (p : PFun) (cf : ParserState → PFun) (hp : IndexSafe p)
    (hcf : ∀ st, IndexSafe (cf st)) : IndexSafe (chain p cf) := by
  intro s hs
  obtain ⟨ht, hle, hub⟩ := hp s hs
  by_cases he : (p s).isError
  · simp [chain, he, ht, hle, hub]
  · obtain ⟨ht2, hle2, hub2⟩ := hcf (p s) (p s) (by rw [ht]; exact hub)
    rw [ht] at ht2 hub2
    simp only [chain, he, Bool.false_eq_true, if_false]
    exact ⟨ht2, le_trans hle hle2, hub2⟩

theorem indexSafe_lazy (thunkP : Unit → PFun) (hp : IndexSafe (thunkP ())) :
    IndexSafe (lazy thunkP) := hp

theorem indexSafe_sequenceOfLoop (parsers : List PFun) :
    ∀ (s : ParserState) (acc : List RVal), (∀ p ∈ parsers, IndexSafe p) →
      s.index ≤ s.target.length →
      (sequenceOfLoop parsers s acc).1.target = s.target ∧
      s.index ≤ (sequenceOfLoop parsers s acc).1.index ∧
      (sequenceOfLoop parsers s acc).1.index ≤ s.target.length := by
  induction parsers with
  | nil => intro s acc _ hs; exact ⟨rfl, le_rfl, hs⟩
  | cons p rest ih =>
    intro s acc hsafe hs
    obtain ⟨ht, hle, hub⟩ := hsafe p (List.mem_cons_self p rest) s hs
    obtain ⟨ht2, hle2, hub2⟩ :=
      ih (p s) (acc ++ [(p s).result]) (fun q hq => hsafe q (List.mem_cons_of_mem p hq))
        (by rw [ht]; exact hub)
    rw [ht] at ht2 hub2
    exact ⟨ht2, le_trans hle hle2, hub2⟩

theorem indexSafe_sequenceOf (parsers : List PFun) (hsafe : ∀ p ∈ parsers, IndexSafe p) :
    IndexSafe (sequenceOf parsers) := by
  intro s hs
  by_cases he : s.isError
  · simp [sequenceOf, he, hs]
  · obtain ⟨ht, hle, hub⟩ := indexSafe_sequenceOfLoop parsers s [] hsafe hs
    simp only [sequenceOf, he, Bool.false_eq_true, if_false]
    split
    · exact ⟨ht, hle, hub⟩
    · simp only [updateParserResult_target, updateParserResult_index]
      exact ⟨ht, hle, hub⟩

theorem indexSafe_choiceLoop (parsers : List PFun) (x : ParserState) :
    ∀ (tok : Option Str) (idx pre : Nat), (∀ p ∈ parsers, IndexSafe p) →
      x.index ≤ x.target.length →
      (choiceLoop parsers x tok idx pre).target = x.target ∧
      x.index ≤ (choiceLoop parsers x tok idx pre).index ∧
      (choiceLoop parsers x tok idx pre).index ≤ x.target.length := by
  induction parsers with
  | nil => intro tok idx pre _ hx; exact ⟨rfl, le_rfl, hx⟩
  | cons p rest ih =>
    intro tok idx pre hsafe hx
    simp only [choiceLoop]
    by_cases he : (p x).isError
    · simp only [he, Bool.not_true, Bool.false_eq_true, if_false]
      split
      · exact ih _ _ _ (fun q hq => hsafe q (List.mem_cons_of_mem p hq)) hx
      · exact ih _ _ _ (fun q hq => hsafe q (List.mem_cons_of_mem p hq)) hx
    · have he' : (!(p x).isError) = true := by simp [he]
      rw [if_pos he']
      exact hsafe p (List.mem_cons_self p rest) x hx

theorem indexSafe_choice (parsers : List PFun) (hsafe : ∀ p ∈ parsers, IndexSafe p) :
    IndexSafe (choice parsers) := by
  intro s hs
  by_cases he : s.isError
  · simp [choice, he, hs]
  · simp only [choice, he, Bool.false_eq_true, if_false]
    exact indexSafe_choiceLoop parsers s none 0 0 hsafe hs

theorem indexSafe_between (l r c : PFun) (hl : IndexSafe l) (hr : IndexSafe r)
    (hc : IndexSafe c) : IndexSafe (between l r c) := by
  refine indexSafe_map _ _ (indexSafe_sequenceOf _ ?_)
  intro p hp
  rcases List.mem_cons.mp hp with rfl | hp
  · exact hl
  · rcases List.mem_cons.mp hp with rfl | hp
    · exact hc
    · rcases List.mem_cons.mp hp with rfl | hp
      · exact hr
      · cases hp

theorem indexSafe_oneOrZero (p : PFun) (hp : IndexSafe p) : IndexSafe (oneOrZero p) := by
  refine indexSafe_choice _ ?_
  intro q hq
  rcases List.mem_cons.mp hq with rfl | hq
  · exact hp
  · rcases List.mem_cons.mp hq with rfl | hq
    · exact indexSafe_succeed RVal.null
    · cases hq

/-- A generator all of whose yielded parsers, along every continuation,
are `IndexSafe`. -/
def GenSafe : Gen → Prop
  | Gen.done _ => True
  | Gen.step p k => IndexSafe p ∧ ∀ st, GenSafe (k st)

theorem indexSafe_runStep : ∀ g : Gen, GenSafe g → IndexSafe (runStep g) := by
  intro g
  induction g with
  | done v => intro _; exact indexSafe_succeed v
  | step p k ih =>
    intro hg
    exact indexSafe_chain p _ hg.1 (fun st => ih st (hg.2 st))

theorem indexSafe_contextual (g : Gen) (hg : GenSafe g) : IndexSafe (contextual g) :=
  indexSafe_chain _ _ (indexSafe_succeed RVal.null) (fun _ => indexSafe_runStep g hg)

theorem indexSafe_manyLoop (p : PFun) (hp : IndexSafe p) :
    ∀ (fuel : Nat) (s out : ParserState) (acc : List RVal),
      s.index ≤ s.target.length → manyLoop p fuel s acc = some out →
      out.target = s.target ∧ s.index ≤ out.index ∧ out.index ≤ s.target.length := by
  intro fuel
  induction fuel with
  | zero => intro s out acc hs h; simp [manyLoop] at h
  | succ n ih =>
    intro s out acc hs h
    simp only [manyLoop] at h
    by_cases h1 : (p s).isError
    · simp only [h1, if_true] at h
      obtain rfl := Option.some.inj h
      exact ⟨rfl, le_rfl, hs⟩
    · simp only [h1, Bool.false_eq_true, if_false] at h
      obtain ⟨ht, hle, hub⟩ := hp s hs
      obtain ⟨ht2, hle2, hub2⟩ := ih (p s) out _ (by rw [ht]; exact hub) h
      rw [ht] at ht2 hub2
      exact ⟨ht2, le_trans hle hle2, hub2⟩

theorem indexSafe_many (p : PFun) (hp : IndexSafe p) :
    ∀ (fuel : Nat) (s out : ParserState), s.index ≤ s.target.length →
      many p fuel s = some out →
      out.target = s.target ∧ s.index ≤ out.index ∧ out.index ≤ s.target.length := by
  intro fuel s out hs h
  by_cases he : s.isError
  · rw [many, if_pos he] at h
    obtain rfl := Option.some.inj h
    exact ⟨rfl, le_rfl, hs⟩
  · rw [many, if_neg he] at h
    exact indexSafe_manyLoop p hp fuel s out [] hs h

theorem indexSafe_manyOneLoop (p : PFun) (hp : IndexSafe p) :
    ∀ (fuel : Nat) (start s out : ParserState) (acc : List RVal),
      start.target = s.target → start.index ≤ s.index → s.index ≤ s.target.length →
      manyOneLoop p fuel start s acc = some out →
      out.target = start.target ∧ start.index ≤ out.index ∧
        out.index ≤ start.target.length := by
  intro fuel
  induction fuel with
  | zero => intro start s out acc _ _ _ h; simp [manyOneLoop] at h
  | succ n ih =>
    intro start s out acc hts his hs h
    simp only [manyOneLoop] at h
    by_cases h1 : (p s).isError
    · simp only [h1, if_true] at h
      by_cases hacc : acc.isEmpty
      · simp only [hacc, if_true] at h
        obtain rfl := Option.some.inj h
        refine ⟨rfl, le_rfl, ?_⟩
        show start.index ≤ start.target.length
        rw [hts]
        exact le_trans his hs
      · simp only [hacc, Bool.false_eq_true, if_false] at h
        obtain rfl := Option.some.inj h
        refine ⟨hts.symm, his, ?_⟩
        show s.index ≤ start.target.length
        rw [hts]
        exact hs
    · simp only [h1, Bool.false_eq_true, if_false] at h
      obtain ⟨ht, hle, hub⟩ := hp s hs
      exact ih start (p s) out _ (hts.trans ht.symm) (le_trans his hle)
        (by rw [ht]; exact hub) h

theorem indexSafe_manyOne (p : PFun) (hp : IndexSafe p) :
    ∀ (fuel : Nat) (s out : ParserState), s.index ≤ s.target.length →
      manyOne p fuel s = some out →
      out.target = s.target ∧ s.index ≤ out.index ∧ out.index ≤ s.target.length := by
  intro fuel s out hs h
  by_cases he : s.isError
  · rw [manyOne, if_pos he] at h
    obtain rfl := Option.some.inj h
    exact ⟨rfl, le_rfl, hs⟩
  · rw [manyOne, if_neg he] at h
    exact indexSafe_manyOneLoop p hp fuel s s out [] rfl le_rfl hs h

theorem indexSafe_sepByLoop (sep v : PFun) (hsep : IndexSafe sep) (hv : IndexSafe v) :
    ∀ (fuel : Nat) (s out : ParserState) (acc : List RVal),
      s.index ≤ s.target.length → sepByLoop sep v fuel s acc = some out →
      out.target = s.target ∧ s.index ≤ out.index ∧ out.index ≤ s.target.length := by
  intro fuel
  induction fuel with
  | zero => intro s out acc hs h; simp [sepByLoop] at h
  | succ n ih =>
    intro s out acc hs h
    simp only [sepByLoop] at h
    by_cases h1 : (v s).isError
    · simp only [h1, if_true] at h
      obtain rfl := Option.some.inj h
      exact ⟨rfl, le_rfl, hs⟩
    · simp only [h1, Bool.false_eq_true, if_false] at h
      obtain ⟨ht, hle, hub⟩ := hv s hs
      by_cases h2 : (sep (v s)).isError
      · simp only [h2, if_true] at h
        obtain rfl := Option.some.inj h
        refine ⟨ht, hle, ?_⟩
        show (v s).index ≤ s.target.length
        exact hub
      · simp only [h2, Bool.false_eq_true, if_false] at h
        obtain ⟨ht2, hle2, hub2⟩ := hsep (v s) (by rw [ht]; exact hub)
        obtain ⟨ht3, hle3, hub3⟩ := ih (sep (v s)) out _ (by rw [ht2]; exact hub2) h
        rw [ht2, ht] at ht3 hub3
        exact ⟨ht3, le_trans hle (le_trans hle2 hle3), hub3⟩

theorem indexSafe_sepBy (sep v : PFun) (hsep : IndexSafe sep) (hv : IndexSafe v) :
    ∀ (fuel : Nat) (s out : ParserState), s.index ≤ s.target.length →
      sepBy sep v fuel s = some out →
      out.target = s.target ∧ s.index ≤ out.index ∧ out.index ≤ s.target.length := by
  intro fuel s out hs h
  by_cases he : s.isError
  · rw [sepBy, if_pos he] at h
    obtain rfl := Option.some.inj h
    exact ⟨rfl, le_rfl, hs⟩
  · rw [sepBy, if_neg he] at h
    exact indexSafe_sepByLoop sep v hsep hv fuel s out [] hs h

theorem indexSafe_sepByOneLoop (sep v : PFun) (hsep : IndexSafe sep) (hv : IndexSafe v) :
    ∀ (fuel : Nat) (start s out : ParserState) (acc : List RVal),
      start.target = s.target → start.index ≤ s.index → s.index ≤ s.target.length →
      sepByOneLoop sep v fuel start s acc = some out →
      out.target = start.target ∧ start.index ≤ out.index ∧
        out.index ≤ start.target.length := by
  intro fuel
  induction fuel with
  | zero => intro start s out acc _ _ _ h; simp [sepByOneLoop] at h
  | succ n ih =>
    intro start s out acc hts his hs h
    simp only [sepByOneLoop] at h
    by_cases h1 : (v s).isError
    · simp only [h1, if_true] at h
      by_cases hacc : acc.isEmpty
      · simp only [hacc, if_true] at h
        obtain rfl := Option.some.inj h
        refine ⟨rfl, le_rfl, ?_⟩
        show start.index ≤ start.target.length
        rw [hts]
        exact le_trans his hs
      · simp only [hacc, Bool.false_eq_true, if_false] at h
        obtain rfl := Option.some.inj h
        refine ⟨hts.symm, his, ?_⟩
        show s.index ≤ start.target.length
        rw [hts]
        exact hs
    · simp only [h1, Bool.false_eq_true, if_false] at h
      obtain ⟨ht, hle, hub⟩ := hv s hs
      by_cases h2 : (sep (v s)).isError
      · simp only [h2, if_true] at h
        obtain rfl := Option.some.inj h
        refine ⟨ht.trans hts.symm, le_trans his hle, ?_⟩
        show (v s).index ≤ start.target.length
        rw [hts]
        exact hub
      · simp only [h2, Bool.false_eq_true, if_false] at h
        obtain ⟨ht2, hle2, hub2⟩ := hsep (v s) (by rw [ht]; exact hub)
        exact ih start (sep (v s)) out _ (hts.trans (ht.symm.trans ht2.symm))
          (le_trans his (le_trans hle hle2)) (by rw [ht2]; exact hub2) h

theorem indexSafe_sepByOne (sep v : PFun) (hsep : IndexSafe sep) (hv : IndexSafe v) :
    ∀ (fuel : Nat) (s out : ParserState), s.index ≤ s.target.length →
      sepByOne sep v fuel s = some out →
      out.target = s.target ∧ s.index ≤ out.index ∧ out.index ≤ s.target.length := by
  intro fuel s out hs h
  by_cases he : s.isError
  · rw [sepByOne, if_pos he] at h
    obtain rfl := Option.some.inj h
    exact ⟨rfl, le_rfl, hs⟩
  · rw [sepByOne, if_neg he] at h
    exact indexSafe_sepByOneLoop sep v hsep hv fuel s s out [] rfl le_rfl hs h

theorem indexSafe_sequenceSepByLoop (sep : PFun) (hsep : IndexSafe sep) :
    ∀ (parsers : List PFun) (s : ParserState) (acc : List RVal),
      (∀ p ∈ parsers, IndexSafe p) → s.index ≤ s.target.length →
      (sequenceSepByLoop sep parsers s acc).1.target = s.target ∧
      s.index ≤ (sequenceSepByLoop sep parsers s acc).1.index ∧
      (sequenceSepByLoop sep parsers s acc).1.index ≤ s.target.length := by
  intro parsers
  induction parsers with
  | nil => intro s acc _ hs; exact ⟨rfl, le_rfl, hs⟩
  | cons p rest ih =>
    intro s acc hsafe hs
    obtain ⟨ht, hle, hub⟩ := hsafe p (List.mem_cons_self p rest) s hs
    obtain ⟨ht2, hle2, hub2⟩ := hsep (p s) (by rw [ht]; exact hub)
    obtain ⟨ht3, hle3, hub3⟩ :=
      ih (sep (p s)) (acc ++ [(p s).result]) (fun q hq => hsafe q (List.mem_cons_of_mem p hq))
        (by rw [ht2]; exact hub2)
    rw [ht2, ht] at ht3 hub3
    exact ⟨ht3, le_trans hle (le_trans hle2 hle3), hub3⟩

theorem indexSafe_sequenceSepBy (sep : PFun) (parsers : List PFun) (hsep : IndexSafe sep)
    (hps : ∀ p ∈ parsers, IndexSafe p) :
    ∀ (s out : ParserState), s.index ≤ s.target.length →
      sequenceSepBy sep parsers s = some out →
      out.target = s.target ∧ s.index ≤ out.index ∧ out.index ≤ s.target.length := by
  intro s out hs h
  by_cases he : s.isError
  · rw [sequenceSepBy, if_pos he] at h
    obtain rfl := Option.some.inj h
    exact ⟨rfl, le_rfl, hs⟩
  · rw [sequenceSepBy, if_neg he] at h
    obtain ⟨ht, hle, hub⟩ :=
      indexSafe_sequenceSepByLoop sep hsep (parsers.take (parsers.length - 1)) s []
        (fun q hq => hps q (List.mem_of_mem_take hq)) hs
    cases hlast : parsers[parsers.length - 1]? with
    | none =>
      rw [hlast] at h
      simp at h
    | some lastP =>
      rw [hlast] at h
      have hmem : lastP ∈ parsers := List.getElem?_mem hlast
      obtain ⟨ht2, hle2, hub2⟩ :=
        hps lastP hmem (sequenceSepByLoop sep (parsers.take (parsers.length - 1)) s []).1
          (by rw [ht]; exact hub)
      rw [ht] at ht2 hub2
      simp only [] at h
      by_cases hfin : (lastP (sequenceSepByLoop sep (parsers.take (parsers.length - 1)) s []).1).isError
      · rw [if_pos hfin] at h
        obtain rfl := Option.some.inj h
        exact ⟨ht2, le_trans hle hle2, hub2⟩
      · rw [if_neg hfin] at h
        obtain rfl := Option.some.inj h
        exact ⟨ht2, le_trans hle hle2, hub2⟩

theorem regexParserFactory_fail_index (matchFn : Str → Option Str) (regexType pat : Str)
    (s : ParserState) (hs : s.isError = false) :
    (regexParserFactory matchFn regexType pat s).isError = true →
    (regexParserFactory matchFn regexType pat s).index = s.index := by
  intro hf
  cases hm : matchFn (s.target.drop s.index) with
  | some m =>
    by_cases hsep : isSeparation m <;>
      simp [regexParserFactory, hs, hm, hsep] at hf
  | none =>
    by_cases hlen : List.length s.target - s.index = 0 <;>
      simp [regexParserFactory, hs, hm, List.length_drop, hlen]

theorem str_fail_index (sb : Str) (s : ParserState) (hs : s.isError = false) :
    (str sb s).isError = true → (str sb s).index = s.index := by
  intro hf
  by_cases hlen : List.length s.target - s.index = 0
  · simp [str, hs, List.length_drop, hlen]
  · by_cases hpre : sb.isPrefixOf (s.target.drop s.index)
    · by_cases hsep : isSeparation sb <;>
        simp [str, hs, List.length_drop, hlen, hpre, hsep] at hf
    · simp [str, hs, List.length_drop, hlen, hpre]

theorem boundedMatch_matchRegexPlus (pred : Char → Bool) :
    BoundedMatch (matchRegexPlus pred) := by
  intro t m hm
  simp only [matchRegexPlus] at hm
  split at hm
  · cases hm
  · obtain rfl := Option.some.inj hm
    exact List.IsPrefix.length_le (List.takeWhile_prefix pred)

/-- C8 (amended): for every state whose index is within the target's
bounds, every public operation other than `setCurState` — with matchers
whose matched text or match offset fits inside the searched suffix, and
with argument parsers that are themselves index-safe — preserves the
target, never decreases the index (on successful and on failing steps
alike), and keeps the index within the target's bounds, hence never
negative (the embedding's index is a `Nat` because the engine only ever
adds non-negative lengths to it); the failure primitive
`updateParserError` keeps the index and target of the state it is given,
so a failing primitive matcher step leaves the index exactly unchanged —
but a failing composite step (e.g. `sequenceOf`) may return an index
greater than its entry index, and `setCurState` replaces the state
wholesale and can decrease the index. -/
theorem claim_C8_index_invariant :
    (∀ (s : ParserState) (m : ErrMsg),
      (updateParserError s m).index = s.index ∧ (updateParserError s m).target = s.target) ∧
    (∀ (matchFn : Str → Option Str) (regexType pat : Str), BoundedMatch matchFn →
      IndexSafe (regexParserFactory matchFn regexType pat)) ∧
    (∀ sb : Str, IndexSafe (str sb)) ∧
    (∀ findFn : Str → Option Nat, BoundedFind findFn → IndexSafe (eat findFn)) ∧
    IndexSafe peek ∧
    (∀ v : RVal, IndexSafe (succeed v)) ∧
    IndexSafe getCurState ∧
    (∀ (matchFn : Str → Option Str) (regexType pat : Str) (s : ParserState),
      s.isError = false → (regexParserFactory matchFn regexType pat s).isError = true →
      (regexParserFactory matchFn regexType pat s).index = s.index) ∧
    (∀ (sb : Str) (s : ParserState), s.isError = false → (str sb s).isError = true →
      (str sb s).index = s.index) ∧
    (∀ (p : PFun) (fn : RVal → RVal), IndexSafe p → IndexSafe (map p fn)) ∧
    (∀ (p : PFun) (fn : Option ErrMsg → Nat → ErrMsg), IndexSafe p →
      IndexSafe (errorMap p fn)) ∧
    (∀ (p : PFun) (cf : ParserState → PFun), IndexSafe p → (∀ st, IndexSafe (cf st)) →
      IndexSafe (chain p cf)) ∧
    (∀ parsers : List PFun, (∀ p ∈ parsers, IndexSafe p) → IndexSafe (sequenceOf parsers)) ∧
    (∀ parsers : List PFun, (∀ p ∈ parsers, IndexSafe p) → IndexSafe (choice parsers)) ∧
    (∀ l r c : PFun, IndexSafe l → IndexSafe r → IndexSafe c → IndexSafe (between l r c)) ∧
    (∀ p : PFun, IndexSafe p → IndexSafe (oneOrZero p)) ∧
    (∀ thunkP : Unit → PFun, IndexSafe (thunkP ()) → IndexSafe (lazy thunkP)) ∧
    (∀ g : Gen, GenSafe g → IndexSafe (contextual g)) ∧
    (∀ (p : PFun) (fuel : Nat) (s out : ParserState), IndexSafe p →
      s.index ≤ s.target.length → many p fuel s = some out →
      out.target = s.target ∧ s.index ≤ out.index ∧ out.index ≤ s.target.length) ∧
    (∀ (p : PFun) (fuel : Nat) (s out : ParserState), IndexSafe p →
      s.index ≤ s.target.length → manyOne p fuel s = some out →
      out.target = s.target ∧ s.index ≤ out.index ∧ out.index ≤ s.target.length) ∧
    (∀ (sep v : PFun) (fuel : Nat) (s out : ParserState), IndexSafe sep → IndexSafe v →
      s.index ≤ s.target.length → sepBy sep v fuel s = some out →
      out.target = s.target ∧ s.index ≤ out.index ∧ out.index ≤ s.target.length) ∧
    (∀ (sep v : PFun) (fuel : Nat) (s out : ParserState), IndexSafe sep → IndexSafe v →
      s.index ≤ s.target.length → sepByOne sep v fuel s = some out →
      out.target = s.target ∧ s.index ≤ out.index ∧ out.index ≤ s.target.length) ∧
    (∀ (sep : PFun) (parsers : List PFun) (s out : ParserState), IndexSafe sep →
      (∀ p ∈ parsers, IndexSafe p) → s.index ≤ s.target.length →
      sequenceSepBy sep parsers s = some out →
      out.target = s.target ∧ s.index ≤ out.index ∧ out.index ≤ s.target.length) :=
  ⟨fun _ _ => ⟨rfl, rfl⟩,
    indexSafe_regexParserFactory,
    indexSafe_str,
    indexSafe_eat,
    indexSafe_peek,
    indexSafe_succeed,
    indexSafe_getCurState,
    regexParserFactory_fail_index,
    str_fail_index,
    indexSafe_map,
    indexSafe_errorMap,
    indexSafe_chain,
    indexSafe_sequenceOf,
    indexSafe_choice,
    indexSafe_between,
    indexSafe_oneOrZero,
    indexSafe_lazy,
    indexSafe_contextual,
    fun p fuel s out hp hs h => indexSafe_many p hp fuel s out hs h,
    fun p fuel s out hp hs h => indexSafe_manyOne p hp fuel s out hs h,
    fun sep v fuel s out hsep hv hs h => indexSafe_sepBy sep v hsep hv fuel s out hs h,
    fun sep v fuel s out hsep hv hs h => indexSafe_sepByOne sep v hsep hv fuel s out hs h,
    fun sep parsers s out hsep hps hs h =>
      indexSafe_sequenceSepBy sep parsers hsep hps s out hs h⟩

/-- C8 counterexample: the claim includes `setCurState` (and composite
steps such as `chain`/`sequenceOf`).  Replaying the source's own
commented demo, after `str "1"`, `str "2"` on `"12"` the index is 2, and
the public `setCurState` then succeeds while moving the index back to 0 —
a successful step that decreases the index; moreover a failing
`sequenceOf [str "a", str "b"]` step on `"ax"` returns index 1 ≠ 0, so a
failing step does not leave the index unchanged either. -/
theorem claim_C8_counterexample :
    (str ['2'] (str ['1'] (initialState "12".toList))).isError = false ∧
    (str ['2'] (str ['1'] (initialState "12".toList))).index = 2 ∧
    (setCurState (initialState "12".toList)
      (str ['2'] (str ['1'] (initialState "12".toList)))).isError = false ∧
    (setCurState (initialState "12".toList)
      (str ['2'] (str ['1'] (initialState "12".toList)))).index = 0 ∧
    (sequenceOf [str ['a'], str ['b']] (initialState "ax".toList)).isError = true ∧
    (sequenceOf [str ['a'], str ['b']] (initialState "ax".toList)).index = 1 ∧
    (initialState "ax".toList).index = 0 :=
  ⟨rfl, rfl, rfl, rfl, rfl, rfl, rfl⟩

/-- C8 witness: the invariant conjunction applied to `digits` (a
bounded pattern matcher) on the in-bounds initial state for `"12"`. -/
theorem claim_C8_witness :
    BoundedMatch (matchRegexPlus Char.isDigit) ∧
    (initialState "12".toList).index ≤ (initialState "12".toList).target.length ∧
    ((regexParserFactory (matchRegexPlus Char.isDigit) "digits".toList "/^[0-9]+/".toList
        (initialState "12".toList)).target = (initialState "12".toList).target ∧
      (initialState "12".toList).index ≤
        (regexParserFactory (matchRegexPlus Char.isDigit) "digits".toList "/^[0-9]+/".toList
          (initialState "12".toList)).index ∧
      (regexParserFactory (matchRegexPlus Char.isDigit) "digits".toList "/^[0-9]+/".toList
        (initialState "12".toList)).index ≤ (initialState "12".toList).target.length) :=
  ⟨boundedMatch_matchRegexPlus Char.isDigit, by decide,
    claim_C8_index_invariant.2.1 (matchRegexPlus Char.isDigit) "digits".toList
      "/^[0-9]+/".toList (boundedMatch_matchRegexPlus Char.isDigit)
      (initialState "12".toList) (by decide)⟩

end PC
